import Mathlib

/-!
Verification development for the ComfyUI-DynamiCrafterWrapper nodes
(`nodes.py`).  Python strings are modelled as `List Char`, tensors as
shape-carrying functions into `ℚ`, and the external model/sampler calls
as abstract parameters.  Each section embeds one region of `nodes.py`
and proves the properties claimed of it.
-/
/-! ## String helpers (Python `str` modelled as `List Char`) -/
/- Python `s.split(sep)` for a one-character separator splits at every
occurrence, keeping empty pieces, and returns `[s]` when the separator
does not occur; on `List Char` this is exactly `List.splitOn sep`. -/
/-- Python `pat in s` (substring containment test). -/
def pyIn (pat : List Char) : List Char → Bool
  | [] => pat.isEmpty
  | c :: cs => pat.isPrefixOf (c :: cs) || pyIn pat cs

/-- `pat` occurs as a contiguous substring of `s`. -/
def OccursIn (pat s : List Char) : Prop := ∃ l r, s = l ++ pat ++ r

/-- Python `os.path.basename` on a POSIX path: the part after the last
`/`.  (`nodes.py` line 66: `os.path.basename(ckpt_name)`.) -/
def osBasename (p : List Char) : List Char := (p.splitOn '/').getLastD []

/-- The first component of Python `os.path.splitext` on a basename: the
extension is cut at the last `.`, unless every character before that dot
is itself a dot (then nothing is cut).  (`nodes.py` line 67.) -/
def splitext_base (l : List Char) : List Char :=
  match ((List.range l.length).filter (fun i => l.getD i ' ' == '.')).getLast? with
  | none => l
  | some d => if (l.take d).any (fun c => c != '.') then l.take d else l

/-! ## C1: config selection in `DynamiCrafterModelLoader.loadmodel`
(`nodes.py` lines 65-78).  The `config_file` paths are modelled relative
to the plugin directory (the code joins them onto `script_directory`);
when no branch matches, the code leaves `config_file` unbound and the
subsequent `OmegaConf.load(config_file)` fails, modelled as `none`. -/
def select_config (ckpt_name : List Char) : Option String :=
  let base := splitext_base (osBasename ckpt_name)
  if pyIn "interp".data base && pyIn "512".data base then
    some "configs/dynamicrafter_512_interp_v1.yaml"
  else if pyIn "1024".data base then
    some "configs/dynamicrafter_1024_v1.yaml"
  else if pyIn "512".data base then
    some "configs/dynamicrafter_512_v1.yaml"
  else if pyIn "256".data base then
    some "configs/dynamicrafter_256_v1.yaml"
  else
    none

/-! ## C7: `split_and_trim` (`nodes.py` lines 14-21) and the per-pair
prompt selection in `DynamiCrafterBatchInterpolation.process`
(lines 382-387). -/
/-- Python `str.isspace`-style whitespace used by `strip()`. -/
def isPySpace (c : Char) : Bool := c.isWhitespace

/-- Python `element.strip()`: whitespace removed from both ends
(`nodes.py` line 19). -/
def pyStrip (l : List Char) : List Char :=
  ((l.dropWhile isPySpace).reverse.dropWhile isPySpace).reverse

/-- `split_and_trim` (`nodes.py` lines 14-21): split on `|`, strip each
piece. -/
def split_and_trim (input_string : List Char) : List (List Char) :=
  (input_string.splitOn '|').map pyStrip

/-- The `try split_prompt[i] / except: split_prompt[0]` prompt choice of
`DynamiCrafterBatchInterpolation.process` (`nodes.py` lines 382-387):
piece `i` when it exists, the first piece otherwise. -/
def prompt_for_pair (split_prompt : List (List Char)) (i : Nat) : List Char :=
  if h : i < split_prompt.length then split_prompt.get ⟨i, h⟩
  else split_prompt.headD []

/-- What `strip` produces: a factorisation of the piece into whitespace,
the result, whitespace, with the result free of leading and trailing
whitespace. -/
def IsStrippedOf (res p : List Char) : Prop :=
  (∃ pre suf, p = pre ++ res ++ suf ∧
      (∀ c ∈ pre, isPySpace c = true) ∧ (∀ c ∈ suf, isPySpace c = true)) ∧
  (∀ c, res.head? = some c → isPySpace c = false) ∧
  (∀ c, res.getLast? = some c → isPySpace c = false)

/-! ## C10 / C4: the pair loop of `DynamiCrafterBatchInterpolation.process`
(`nodes.py` lines 322-323 and 360-460).  The DDIM sampling and VAE
decoding of each pair live outside this repository, so the per-pair clip
production is an abstract function `infer` from the two endpoint images
to the list of decoded frames. -/
/-- The per-pair loop (`nodes.py` lines 360-455): iteration `i` runs
inference on images `i` and `i+1` and appends the decoded clip to `out`. -/
def batch_out_clips {α β : Type} (images : List α) (dflt : α)
    (infer : α → α → List β) : List (List β) :=
  (List.range (images.length - 1)).foldl
    (fun out i => out ++ [infer (images.getD i dflt) (images.getD (i + 1) dflt)]) []

/-- `out_video = torch.cat(out, dim=0)` (`nodes.py` line 460). -/
def batch_out_video {α β : Type} (images : List α) (dflt : α)
    (infer : α → α → List β) : List β :=
  (batch_out_clips images dflt infer).flatten

/-- Entry of `DynamiCrafterBatchInterpolation.process` (`nodes.py` lines
322-323): `assert images.shape[0] > 1` runs before anything else; the
failure is the `AssertionError` message. -/
def batch_process_checked {α β : Type} (images : List α) (dflt : α)
    (infer : α → α → List β) : Except String (List β) :=
  if images.length > 1 then Except.ok (batch_out_video images dflt infer)
  else Except.error "DynamiCrafterBatchInterpolation needs at least 2 images"

/-! ## C2: the per-frame image-conditioning latent of
`DynamiCrafterI2V.process` (`nodes.py` lines 179-190).  The latents `z`
and `z2` are opaque per-time-slot slabs (their batch/channel/spatial
extent is untouched by these lines), so the time dimension is modelled
explicitly and the slab type `γ` is abstract with a zero. -/
/-- `repeat(z, 'b c t h w -> b c (repeat t) h w', repeat=frames)` on a
one-slot latent: every time slot holds `z` (`nodes.py` lines 185, 190). -/
def repeat_frames {γ : Type} (frames : Nat) (z : γ) : Fin frames → γ := fun _ => z

/-- `torch.zeros_like(img_tensor_repeat)` (`nodes.py` line 186). -/
def zeros_like {γ : Type} [Zero γ] {n : Nat} (_v : Fin n → γ) : Fin n → γ := fun _ => 0

/-- Slice assignment `img_tensor_repeat[:, :, :1, :, :] = z`
(`nodes.py` line 187): time slots with index `< 1`. -/
def assign_head_slot {γ : Type} {n : Nat} (v : Fin n → γ) (z : γ) : Fin n → γ :=
  fun i => if (i : Nat) < 1 then z else v i

/-- Slice assignment `img_tensor_repeat[:, :, -1:, :, :] = z2`
(`nodes.py` line 188): time slots with index `≥ n - 1`. -/
def assign_last_slot {γ : Type} {n : Nat} (v : Fin n → γ) (z2 : γ) : Fin n → γ :=
  fun i => if n - 1 ≤ (i : Nat) then z2 else v i

/-- `nodes.py` lines 179-190: with a second image the repeated latent is
zeroed and then slots `0` and `-1` are assigned (in that order); without
one the first-image latent fills every slot. -/
def img_tensor_repeat {γ : Type} [Zero γ] (frames : Nat) (z z2 : γ)
    (image2_present : Bool) : Fin frames → γ :=
  if image2_present then
    assign_last_slot (assign_head_slot (zeros_like (repeat_frames frames z)) z) z2
  else repeat_frames frames z

/-! ## C5: keyframe trimming in `DynamiCrafterBatchInterpolation.process`
(`nodes.py` lines 469-481).  Frames are opaque values; the concatenated
video is a list of frames.  Python/torch slice indices may be negative,
so the two slice endpoints are kept as `Int` and normalised exactly as
Python does. -/
/-- Python slice endpoint normalisation for `l[:i]` / `l[i:]`: a
negative index counts from the end, then the result clamps to
`[0, len]`. -/
def pySliceIdx (len : Nat) (i : Int) : Nat :=
  if i < 0 then ((len : Int) + i).toNat else min i.toNat len

/-- `torch.cat([out_video[:start_index], out_video[end_index:]], dim=0)`
(`nodes.py` line 477). -/
def cut_block {α : Type} (video : List α) (s e : Int) : List α :=
  video.take (pySliceIdx video.length s) ++ video.drop (pySliceIdx video.length e)

/-- One iteration of the trimming loop (`nodes.py` lines 472-478) on the
state `(out_video, already_deleted)`. -/
def cut_step {α : Type} (frames cut : Nat) (st : List α × Int) (i : Nat) :
    List α × Int :=
  let old : Int := st.1.length
  let keyframe_index : Int := (((i + 1) * frames : Nat) : Int) - st.2
  let start_index : Int := keyframe_index - ((cut / 2 : Nat) : Int)
  let end_index : Int := start_index + (cut : Int)
  let v := cut_block st.1 start_index end_index
  (v, st.2 + (old - (v.length : Int)))

/-- `nodes.py` lines 469-481: when `cut_near_keyframes > 0`, one cut per
internal keyframe (`for i in range(len(images) - 2)`), threading
`already_deleted`. -/
def cut_near_keyframes_loop {α : Type} (n frames cut : Nat) (video : List α) :
    List α :=
  if 0 < cut then ((List.range (n - 2)).foldl (cut_step frames cut) (video, 0)).1
  else video

/-- `last_image = out_video[-1]` (`nodes.py` line 480); `none` models the
`IndexError` on an empty video. -/
def batch_last_image {α : Type} (out_video : List α) : Option α := out_video.getLast?

/-! ## C3: optional-mask handling in `DynamiCrafterI2V.process`
(`nodes.py` lines 236-240 and the sampler arguments at lines 259-260).
The mask batch dimension rides along unchanged through
`unsqueeze(0)`/`squeeze(0)` (interpolation only touches the two trailing
dims), so one mask channel is modelled; torch's float arithmetic is
modelled exactly over `ℚ`. -/
/-- A 2-D mask channel: spatial extent plus values. -/
structure Mask2D where
  H : Nat
  W : Nat
  val : Nat → Nat → ℚ

/-- `F.interpolate(mask, size=(Hout, Wout), mode="nearest")`: output
pixel `(i, j)` reads input pixel `(⌊i·Hin/Hout⌋, ⌊j·Win/Wout⌋)`. -/
def interp_nearest (m : Mask2D) (Hout Wout : Nat) : Mask2D :=
  { H := Hout, W := Wout,
    val := fun i j => m.val (i * m.H / Hout) (j * m.W / Wout) }

/-- `mask = (1 - mask)` (`nodes.py` line 240). -/
def invert_mask (m : Mask2D) : Mask2D := { m with val := fun i j => 1 - m.val i j }

/-- The `mask` and `x0` arguments handed to `DDIMSampler.sample`
(`nodes.py` lines 236-240, 259-260): a provided mask is resized to the
latent resolution `(H//8, W//8)` with nearest-neighbour interpolation
and inverted, and `x0` is the first image's latent `z`; with no mask
both arguments are `None`. -/
def sampler_mask_x0 {ζ : Type} (H W : Nat) (z : ζ) (mask : Option Mask2D) :
    Option Mask2D × Option ζ :=
  match mask with
  | some m => (some (invert_mask (interp_nearest m (H / 8) (W / 8))), some z)
  | none => (none, none)

/-! ## C6: classifier-free-guidance unconditional conditioning
(`nodes.py` lines 214-230, and verbatim again at lines 403-419 in
`DynamiCrafterBatchInterpolation.process`; one embedding covers both).
The external embedding networks appear as abstract functions; the
conditioning dict is an association list; `hasattr(self.model,
'embedder')` always holds — both nodes call `self.model.embedder`
unconditionally earlier (lines 199, 389) — so that branch is taken. -/
/-- A 4-D image tensor `(B, C, H, W)` with rational entries. -/
structure ImageTensor where
  B : Nat
  C : Nat
  H : Nat
  W : Nat
  val : Nat → Nat → Nat → Nat → ℚ

/-- `torch.zeros(noise_shape[0], 3, 224, 224)` (`nodes.py` line 219). -/
def uc_zero_image (b : Nat) : ImageTensor := ⟨b, 3, 224, 224, fun _ _ _ _ => 0⟩

/-- `uc = {key: cond[key] for key in cond.keys()}` (`nodes.py` line
225): a fresh dict with the same entries. -/
def dict_copy {V : Type} (d : List (String × V)) : List (String × V) := d

/-- Python `dict.update` with a single key (`nodes.py` line 226):
replace the value in place when the key is present, append otherwise. -/
def dict_update {V : Type} (d : List (String × V)) (k : String) (v : V) :
    List (String × V) :=
  if d.any (fun p => p.1 == k) then d.map (fun p => if p.1 == k then (k, v) else p)
  else d ++ [(k, v)]

/-- `cond = {"c_crossattn": [imtext_cond], "c_concat": [img_tensor_repeat]}`
(`nodes.py` line 205). -/
def make_cond {τ : Type} (imtext_cond img_rep : τ) : List (String × List τ) :=
  [("c_crossattn", [imtext_cond]), ("c_concat", [img_rep])]

/-- `nodes.py` lines 214-230: when `cfg != 1.0`, the unconditional dict
copies `cond` and replaces `c_crossattn` by the concatenation (dim 1) of
the empty-string text embedding with the embedded-and-projected all-zero
`b×3×224×224` image; when `cfg == 1.0`, `uc = None`. -/
def construct_uc {τ : Type} (cfg : ℚ) (cond : List (String × List τ))
    (empty_text_emb : τ) (embed_and_project : ImageTensor → τ)
    (cat_dim1 : τ → τ → τ) (b : Nat) : Option (List (String × List τ)) :=
  if cfg ≠ 1 then
    let uc_img := embed_and_project (uc_zero_image b)
    let uc_emb := cat_dim1 empty_text_emb uc_img
    some (dict_update (dict_copy cond) "c_crossattn" [uc_emb])
  else none

/-! ## Bicubic resampling (torch `F.interpolate(..., mode="bicubic")`,
`align_corners=False`, kernel constant `A = -0.75`), used by the final
parity resize (`nodes.py` lines 281-286, 462-467) and by the end-frame
shape fix (line 183).  Float arithmetic is modelled exactly over `ℚ`. -/
/-- torch `cubic_convolution1`: the kernel on `|t| ≤ 1`,
`((A + 2)·t - (A + 3))·t·t + 1` with `A = -3/4`. -/
def cubic_conv1 (t : ℚ) : ℚ := ((-3/4 + 2) * t - (-3/4 + 3)) * t * t + 1

/-- torch `cubic_convolution2`: the kernel on `1 < |t| < 2`,
`((A·t - 5·A)·t + 8·A)·t - 4·A` with `A = -3/4`. -/
def cubic_conv2 (t : ℚ) : ℚ :=
  ((-3/4 * t - 5 * (-3/4)) * t + 8 * (-3/4)) * t - 4 * (-3/4)

/-- `floorf` over exact rationals. -/
def qfloor (q : ℚ) : Int := ⌊q⌋

/-- Clamped tensor access index (`upsample_get_value_bounded`):
`clamp(i, 0, size - 1)`. -/
def clamp_idx (size : Nat) (i : Int) : Nat :=
  (min (max i 0) ((size : Int) - 1)).toNat

/-- Source coordinate for `align_corners=False`:
`scale·(i + 0.5) - 0.5` with `scale = inSz / outSz`. -/
def src_coord (inSz outSz i : Nat) : ℚ :=
  (inSz : ℚ) * ((i : ℚ) + 1/2) / (outSz : ℚ) - 1/2

/-- 1-D cubic interpolation of `f` at output index `i`: the four taps
around `⌊src⌋` with the convolution weights, edge indices clamped. -/
def bicubic1d (inSz outSz : Nat) (f : Nat → ℚ) (i : Nat) : ℚ :=
  let s := src_coord inSz outSz i
  let n := qfloor s
  let t := s - (n : ℚ)
  cubic_conv2 (t + 1) * f (clamp_idx inSz (n - 1)) +
    cubic_conv1 t * f (clamp_idx inSz n) +
    cubic_conv1 (1 - t) * f (clamp_idx inSz (n + 1)) +
    cubic_conv2 (2 - t) * f (clamp_idx inSz (n + 2))

/-- Separable 2-D bicubic resampling of `g` (rows then columns, as torch
computes the 4×4 product-weight sum). -/
def bicubic2d (inH inW outH outW : Nat) (g : Nat → Nat → ℚ) (i j : Nat) : ℚ :=
  bicubic1d inH outH (fun r => bicubic1d inW outW (g r) j) i

/-! ## C9: the end-frame tensor encoded as `z2` on shape mismatch
(`nodes.py` lines 179-188).  `image` and `image2` are the tensors after
the `* 2 - 1` mapping and the `(0, 3, 1, 2)` permutation. -/
/-- `x * 2 - 1` (`nodes.py` lines 160, 180, 345): pixel range `[0, 1]`
to model range `[-1, 1]`. -/
def pixel_to_model_range (x : ℚ) : ℚ := x * 2 - 1

/-- An input image in the host's `(B, H, W, C)` layout. -/
structure ImageBHWC where
  B : Nat
  H : Nat
  W : Nat
  C : Nat
  val : Nat → Nat → Nat → Nat → ℚ

/-- `(image * 2 - 1).permute(0, 3, 1, 2)` (`nodes.py` lines 160-161 and
180-181). -/
def to_model_input (im : ImageBHWC) : ImageTensor :=
  ⟨im.B, im.C, im.H, im.W, fun b c h w => pixel_to_model_range (im.val b h w c)⟩

/-- `F.interpolate(im, size=(Hout, Wout), mode="bicubic")` on a
`(B, C, H, W)` tensor. -/
def interp_bicubic (im : ImageTensor) (Hout Wout : Nat) : ImageTensor :=
  ⟨im.B, im.C, Hout, Wout,
    fun b c i j => bicubic2d im.H im.W Hout Wout (fun r s => im.val b c r s) i j⟩

/-- `image2.shape` as compared on `nodes.py` line 182. -/
def shape_of (im : ImageTensor) : Nat × Nat × Nat × Nat := (im.B, im.C, im.H, im.W)

/-- `nodes.py` lines 182-184: on shape mismatch the code runs
`image2 = F.interpolate(image, size=(H, W), mode="bicubic")` — resizing
`image`, the first image, not `image2` — and `z2` encodes the result;
on matching shapes `image2` itself is encoded. -/
def z2_source (image image2 : ImageTensor) : ImageTensor :=
  if shape_of image2 ≠ shape_of image then interp_bicubic image image.H image.W
  else image2

/-! ## C8: pixel-range transitions and the output size
(`nodes.py` lines 160-170, 272-288; the batch node repeats the same
post-processing at lines 345-354, 450-467).  The decoded tensor comes
from the external VAE in `(b, c, t, h, w)` layout with `b = 1`; it is
given as a value function. -/
/-- A video in the host's `(T, H, W, C)` layout. -/
structure VideoTHWC where
  T : Nat
  H : Nat
  W : Nat
  C : Nat
  val : Nat → Nat → Nat → Nat → ℚ

/-- `nodes.py` lines 272-275: `torch.clamp(video, -1., 1.)`, then
`(video + 1.0) / 2.0`, then `squeeze(0).permute(1, 2, 3, 0)`
(`c t h w → t h w c`). -/
def postprocess_video (T H W C : Nat) (decoded : Nat → Nat → Nat → Nat → ℚ) :
    VideoTHWC :=
  ⟨T, H, W, C, fun t h w c => (min (max (decoded c t h w) (-1)) 1 + 1) / 2⟩

/-- `nodes.py` lines 281-287: the final dimensions are forced to
`((orig_H // 2) * 2, (orig_W // 2) * 2)`, bicubically resizing only when
the video's spatial dims differ from them. -/
def final_resize (origH origW : Nat) (v : VideoTHWC) : VideoTHWC :=
  let fH := origH / 2 * 2
  let fW := origW / 2 * 2
  if v.H ≠ fH ∨ v.W ≠ fW then
    ⟨v.T, fH, fW, v.C,
      fun t i j c => bicubic2d v.H v.W fH fW (fun r s => v.val t r s c) i j⟩
  else v

/-! ## Theorems -/

theorem pyIn_iff (pat s : List Char) : pyIn pat s = true ↔ OccursIn pat s := by
  induction s with
  | nil =>
    simp only [pyIn, List.isEmpty_iff, OccursIn]
    constructor
    · rintro rfl; exact ⟨[], [], rfl⟩
    · rintro ⟨l, r, h⟩
      rcases List.append_eq_nil.mp h.symm with ⟨h1, h2⟩
      rcases List.append_eq_nil.mp h1 with ⟨-, h3⟩
      exact h3
  | cons c cs ih =>
    simp only [pyIn, Bool.or_eq_true, List.isPrefixOf_iff_prefix, ih, OccursIn]
    constructor
    · rintro (⟨t, ht⟩ | ⟨l, r, hr⟩)
      · exact ⟨[], t, ht.symm⟩
      · exact ⟨c :: l, r, by simp [hr]⟩
    · rintro ⟨l, r, h⟩
      match l, h with
      | [], h => exact Or.inl ⟨r, by simpa using h.symm⟩
      | a :: l, h =>
        right
        refine ⟨l, r, ?_⟩
        have := congrArg List.tail h
        simpa using this

/-- C1 (counterexample): for the checkpoint name `model.ckpt` the
stripped basename `model` matches none of the filename heuristics, so no
config is selected (the code prints a warning and then crashes on the
unbound `config_file`), contradicting the claim that a matching config
is selected for every checkpoint name. -/
theorem C1_counterexample : select_config "model.ckpt".data = none := by decide

/-- C1 (amended): for every checkpoint name whose stripped basename
contains one of the recognised patterns, the YAML config is selected by
substring heuristics on the basename in this order: both `interp` and
`512` → the 512-interp config; else `1024` → the 1024 config; else
`512` → the 512 config; else `256` → the 256 config; if no pattern
occurs, no config is selected and loading fails. -/
theorem C1_config_selection (name : List Char) :
    (OccursIn "interp".data (splitext_base (osBasename name)) ∧
        OccursIn "512".data (splitext_base (osBasename name)) →
      select_config name = some "configs/dynamicrafter_512_interp_v1.yaml") ∧
    (¬(OccursIn "interp".data (splitext_base (osBasename name)) ∧
        OccursIn "512".data (splitext_base (osBasename name))) →
      OccursIn "1024".data (splitext_base (osBasename name)) →
      select_config name = some "configs/dynamicrafter_1024_v1.yaml") ∧
    (¬(OccursIn "interp".data (splitext_base (osBasename name)) ∧
        OccursIn "512".data (splitext_base (osBasename name))) →
      ¬OccursIn "1024".data (splitext_base (osBasename name)) →
      OccursIn "512".data (splitext_base (osBasename name)) →
      select_config name = some "configs/dynamicrafter_512_v1.yaml") ∧
    (¬(OccursIn "interp".data (splitext_base (osBasename name)) ∧
        OccursIn "512".data (splitext_base (osBasename name))) →
      ¬OccursIn "1024".data (splitext_base (osBasename name)) →
      ¬OccursIn "512".data (splitext_base (osBasename name)) →
      OccursIn "256".data (splitext_base (osBasename name)) →
      select_config name = some "configs/dynamicrafter_256_v1.yaml") ∧
    ((¬OccursIn "interp".data (splitext_base (osBasename name)) ∨
        ¬OccursIn "512".data (splitext_base (osBasename name))) →
      (¬OccursIn "1024".data (splitext_base (osBasename name))) →
      (¬OccursIn "512".data (splitext_base (osBasename name))) →
      (¬OccursIn "256".data (splitext_base (osBasename name))) →
      select_config name = none) := by
  simp only [select_config, ← pyIn_iff, Bool.and_eq_true, not_and, Bool.not_eq_true]
  refine ⟨?_, ?_, ?_, ?_, ?_⟩ <;> intros <;> simp_all

theorem C1_witness :
    select_config "dynamicrafter_512_interp.safetensors".data =
      some "configs/dynamicrafter_512_interp_v1.yaml" :=
  (C1_config_selection _).1
    ⟨(pyIn_iff _ _).mp (by decide), (pyIn_iff _ _).mp (by decide)⟩

theorem splitOn_ne_nil (x : Char) (xs : List Char) : xs.splitOn x ≠ [] := by
  simpa [List.splitOn] using List.splitOnP_ne_nil (· == x) xs

theorem length_splitOn_count (x : Char) (xs : List Char) :
    (xs.splitOn x).length = xs.count x + 1 := by
  induction xs with
  | nil => rfl
  | cons a tl ih =>
    simp only [List.splitOn] at ih ⊢
    rw [List.splitOnP_cons]
    by_cases h : a = x
    · subst h
      simp [ih, List.count_cons]
    · simp [h, ih, List.count_cons]

theorem not_mem_splitOn (x : Char) (xs : List Char) :
    ∀ p ∈ xs.splitOn x, x ∉ p := by
  induction xs with
  | nil =>
    intro p hp
    simp only [List.splitOn, List.splitOnP_nil, List.mem_singleton] at hp
    subst hp; simp
  | cons a tl ih =>
    intro p hp
    simp only [List.splitOn] at hp ih
    rw [List.splitOnP_cons] at hp
    by_cases h : a = x
    · subst h
      simp only [beq_self_eq_true, if_pos] at hp
      rcases List.mem_cons.mp hp with rfl | hp
      · simp
      · exact ih p hp
    · rw [if_neg (by simpa using h)] at hp
      obtain ⟨q, qs, hq⟩ : ∃ q qs, tl.splitOnP (· == x) = q :: qs := by
        rcases hsp : tl.splitOnP (· == x) with _ | ⟨q, qs⟩
        · exact absurd hsp (List.splitOnP_ne_nil _ tl)
        · exact ⟨q, qs, rfl⟩
      rw [hq, List.modifyHead_cons] at hp
      rcases List.mem_cons.mp hp with rfl | hp
      · intro hxp
        rcases List.mem_cons.mp hxp with rfl | hxq
        · exact h rfl
        · exact ih q (hq ▸ List.mem_cons_self q qs) hxq
      · exact ih p (hq ▸ List.mem_cons_of_mem q hp)

theorem pyStrip_spec (p : List Char) : IsStrippedOf (pyStrip p) p := by
  have hm : p.takeWhile isPySpace ++ p.dropWhile isPySpace = p :=
    List.takeWhile_append_dropWhile isPySpace p
  have hr : (p.dropWhile isPySpace).reverse.takeWhile isPySpace ++
      (p.dropWhile isPySpace).reverse.dropWhile isPySpace =
      (p.dropWhile isPySpace).reverse :=
    List.takeWhile_append_dropWhile isPySpace (p.dropWhile isPySpace).reverse
  have hm2 : pyStrip p ++ ((p.dropWhile isPySpace).reverse.takeWhile isPySpace).reverse =
      p.dropWhile isPySpace := by
    conv_rhs => rw [← List.reverse_reverse (List.dropWhile isPySpace p), ← hr]
    rw [List.reverse_append]
    rfl
  refine ⟨⟨p.takeWhile isPySpace,
      ((p.dropWhile isPySpace).reverse.takeWhile isPySpace).reverse, ?_, ?_, ?_⟩, ?_, ?_⟩
  · rw [List.append_assoc, hm2, hm]
  · intro c hc
    exact List.mem_takeWhile_imp hc
  · intro c hc
    exact List.mem_takeWhile_imp (List.mem_reverse.mp hc)
  · intro c hc
    have hmh : (p.dropWhile isPySpace).head? = some c := by
      rw [← hm2, List.head?_append, hc]; rfl
    have := List.head?_dropWhile_not isPySpace p
    rw [hmh] at this
    exact this
  · intro c hc
    have hrh : ((p.dropWhile isPySpace).reverse.dropWhile isPySpace).head? = some c := by
      have : (pyStrip p).getLast? =
          ((p.dropWhile isPySpace).reverse.dropWhile isPySpace).head? := by
        simp [pyStrip]
      rwa [← this]
    have := List.head?_dropWhile_not isPySpace (p.dropWhile isPySpace).reverse
    rw [hrh] at this
    exact this

/-- C7: `split_and_trim` splits its input on every `|` and strips
whitespace from each piece, always returning at least one element (the
pieces reassemble to the input with `|` separators, and contain no `|`);
the pair-`i` prompt is piece `i` when index `i` exists and otherwise the
first piece. -/
theorem C7_split_and_trim (s : List Char) (i : Nat) :
    split_and_trim s ≠ [] ∧
    (split_and_trim s).length = s.count '|' + 1 ∧
    [('|' : Char)].intercalate (s.splitOn '|') = s ∧
    (∀ p ∈ s.splitOn '|', ('|' : Char) ∉ p) ∧
    (∀ q ∈ split_and_trim s, ∃ p ∈ s.splitOn '|', q = pyStrip p ∧ IsStrippedOf q p) ∧
    (i < (split_and_trim s).length →
      prompt_for_pair (split_and_trim s) i = (split_and_trim s).getD i []) ∧
    (¬i < (split_and_trim s).length →
      prompt_for_pair (split_and_trim s) i = (split_and_trim s).headD []) := by
  refine ⟨?_, ?_, ?_, ?_, ?_, ?_, ?_⟩
  · simpa [split_and_trim] using splitOn_ne_nil '|' s
  · simpa [split_and_trim] using length_splitOn_count '|' s
  · exact List.intercalate_splitOn s '|'
  · exact not_mem_splitOn '|' s
  · intro q hq
    rcases List.mem_map.mp hq with ⟨p, hp, rfl⟩
    exact ⟨p, hp, rfl, pyStrip_spec p⟩
  · intro h
    rw [prompt_for_pair, dif_pos h]
    simp [List.getD_eq_getElem?_getD, List.getElem?_eq_getElem h]
  · intro h
    rw [prompt_for_pair, dif_neg h]

theorem C7_witness :
    split_and_trim " a | b ".data = ["a".data, "b".data] ∧
    prompt_for_pair (split_and_trim " a | b ".data) 5 =
      (split_and_trim " a | b ".data).headD [] :=
  ⟨by decide, (C7_split_and_trim " a | b ".data 5).2.2.2.2.2.2 (by decide)⟩

theorem foldl_append_singleton {α β : Type} (f : α → List β) (l : List α)
    (acc : List (List β)) :
    l.foldl (fun out i => out ++ [f i]) acc = acc ++ l.map f := by
  induction l generalizing acc with
  | nil => simp
  | cons a tl ih => simp [ih, List.append_assoc]

theorem batch_out_clips_eq {α β : Type} (images : List α) (dflt : α)
    (infer : α → α → List β) :
    batch_out_clips images dflt infer =
      (List.range (images.length - 1)).map
        (fun i => infer (images.getD i dflt) (images.getD (i + 1) dflt)) := by
  simpa [batch_out_clips] using
    foldl_append_singleton
      (fun i => infer (images.getD i dflt) (images.getD (i + 1) dflt))
      (List.range (images.length - 1)) []

/-- C4: for a batch of `N ≥ 2` images the node runs one inference per
consecutive pair, in order, and concatenates the per-pair clips along
the frame dimension in that order; when every clip holds `frames`
frames, the concatenated video has exactly `(N - 1) * frames` frames. -/
theorem C4_batch_concat {α β : Type} (images : List α) (dflt : α) (frames : Nat)
    (infer : α → α → List β) (h2 : 2 ≤ images.length)
    (hlen : ∀ i < images.length - 1,
      (infer (images.getD i dflt) (images.getD (i + 1) dflt)).length = frames) :
    batch_process_checked images dflt infer =
      Except.ok (((List.range (images.length - 1)).map
        (fun i => infer (images.getD i dflt) (images.getD (i + 1) dflt))).flatten) ∧
    (batch_out_video images dflt infer).length = (images.length - 1) * frames := by
  constructor
  · rw [batch_process_checked, if_pos (by omega), batch_out_video, batch_out_clips_eq]
  · rw [batch_out_video, batch_out_clips_eq, List.length_flatten, List.map_map]
    have hrep : ((List.range (images.length - 1)).map
        (List.length ∘ fun i => infer (images.getD i dflt) (images.getD (i + 1) dflt))) =
        List.replicate (images.length - 1) frames := by
      apply List.eq_replicate_iff.mpr
      refine ⟨by simp, ?_⟩
      intro b hb
      rcases List.mem_map.mp hb with ⟨i, hi, rfl⟩
      exact hlen i (List.mem_range.mp hi)
    rw [hrep, List.sum_const_nat]

theorem C4_witness :
    batch_process_checked [0, 1, 2] 0 (fun a b => [a, b]) =
      Except.ok [0, 1, 1, 2] ∧
    (batch_out_video [0, 1, 2] 0 (fun a b => [a, b])).length = 2 * 2 := by
  have h := C4_batch_concat [0, 1, 2] 0 2 (fun a b => [a, b])
    (by decide) (by decide)
  exact ⟨by rw [h.1]; rfl, h.2⟩

/-- C10: `DynamiCrafterBatchInterpolation.process` fails with the
`AssertionError` message "DynamiCrafterBatchInterpolation needs at least
2 images" exactly when the batch holds fewer than two images, and the
check precedes any model use: in the failing case the result does not
depend on the inference function at all. -/
theorem C10_assert {α β : Type} (images : List α) (dflt : α)
    (infer : α → α → List β) :
    ((∃ e, batch_process_checked images dflt infer = Except.error e) ↔
      images.length < 2) ∧
    (images.length < 2 →
      batch_process_checked images dflt infer =
        Except.error "DynamiCrafterBatchInterpolation needs at least 2 images") ∧
    (images.length < 2 → ∀ infer2 : α → α → List β,
      batch_process_checked images dflt infer =
        batch_process_checked images dflt infer2) := by
  by_cases h : images.length > 1
  · refine ⟨⟨?_, ?_⟩, ?_, ?_⟩
    · rintro ⟨e, he⟩
      rw [batch_process_checked, if_pos h] at he
      exact absurd he (by simp)
    · intro hlt; omega
    · intro hlt; omega
    · intro hlt; omega
  · refine ⟨⟨fun _ => by omega, fun _ => ?_⟩, fun _ => ?_, fun _ infer2 => ?_⟩
    · exact ⟨_, by rw [batch_process_checked, if_neg h]⟩
    · rw [batch_process_checked, if_neg h]
    · rw [batch_process_checked, if_neg h, batch_process_checked, if_neg h]

theorem C10_witness :
    batch_process_checked [0] 0 (fun _ _ => ([] : List Nat)) =
      Except.error "DynamiCrafterBatchInterpolation needs at least 2 images" :=
  (C10_assert [0] 0 (fun _ _ => ([] : List Nat))).2.1 (by decide)

/-- C2 (counterexample): with `frames = 1` the head-slot and last-slot
assignments overlap and the later (`z2`) one wins, so time slot 0 does
not hold the first image's latent, contrary to the claim (here `z = 1`,
`z2 = 2`). -/
theorem C2_counterexample :
    img_tensor_repeat 1 (1 : ℤ) 2 true ⟨0, Nat.one_pos⟩ = 2 ∧ (2 : ℤ) ≠ 1 := by
  exact ⟨rfl, by decide⟩

/-- C2 (amended): when `image2` is absent every one of the `frames` time
slots holds the first image's latent; when `image2` is present and
`frames ≥ 2`, slot 0 holds the first image's latent, the last slot holds
the end-frame latent and every other slot is zero; when `image2` is
present and `frames = 1` the single slot holds the end-frame latent
(the two slice assignments overlap and the later one wins). -/
theorem C2_cond_latents {γ : Type} [Zero γ] (frames : Nat) (z z2 : γ) :
    (∀ i : Fin frames, img_tensor_repeat frames z z2 false i = z) ∧
    (∀ h2 : 2 ≤ frames,
      img_tensor_repeat frames z z2 true ⟨0, by omega⟩ = z ∧
      img_tensor_repeat frames z z2 true ⟨frames - 1, by omega⟩ = z2 ∧
      (∀ i : Fin frames, 0 < (i : Nat) → (i : Nat) < frames - 1 →
        img_tensor_repeat frames z z2 true i = 0)) ∧
    (∀ h1 : frames = 1, ∀ i : Fin frames, img_tensor_repeat frames z z2 true i = z2) := by
  have htrue : img_tensor_repeat frames z z2 true =
      assign_last_slot (assign_head_slot (zeros_like (repeat_frames frames z)) z) z2 := rfl
  refine ⟨fun i => rfl, fun h2 => ⟨?_, ?_, ?_⟩, fun h1 i => ?_⟩
  · rw [htrue]
    simp only [assign_last_slot, assign_head_slot]
    rw [if_neg (by omega), if_pos (by omega)]
  · rw [htrue]
    simp only [assign_last_slot]
    rw [if_pos (by omega)]
  · intro i h0 hlt
    rw [htrue]
    simp only [assign_last_slot, assign_head_slot, zeros_like]
    rw [if_neg (by omega), if_neg (by omega)]
  · rw [htrue]
    simp only [assign_last_slot]
    rw [if_pos (by omega)]

theorem C2_witness :
    img_tensor_repeat 3 (5 : ℤ) 7 true ⟨0, by decide⟩ = 5 ∧
    img_tensor_repeat 3 (5 : ℤ) 7 true ⟨2, by decide⟩ = 7 ∧
    img_tensor_repeat 3 (5 : ℤ) 7 true ⟨1, by decide⟩ = 0 ∧
    img_tensor_repeat 3 (5 : ℤ) 7 false ⟨1, by decide⟩ = 5 := by
  have h := C2_cond_latents 3 (5 : ℤ) 7
  exact ⟨(h.2.1 (by decide)).1, (h.2.1 (by decide)).2.1,
    (h.2.1 (by decide)).2.2 ⟨1, by decide⟩ (by decide) (by decide),
    h.1 ⟨1, by decide⟩⟩

theorem cut_block_length {α : Type} (video : List α) (s e : Int)
    (hs : 0 ≤ s) (hse : s ≤ e) (he : e ≤ (video.length : Int)) :
    (cut_block video s e).length = video.length - (e - s).toNat := by
  rw [cut_block, List.length_append, List.length_take, List.length_drop]
  rw [pySliceIdx, if_neg (by omega), pySliceIdx, if_neg (by omega)]
  omega

theorem take_append_drop_sublist {α : Type} (l : List α) (a b : Nat) (h : a ≤ b) :
    (l.take a ++ l.drop b).Sublist l := by
  conv_rhs => rw [← List.take_append_drop a l]
  refine List.Sublist.append (List.Sublist.refl _) ?_
  have hd : l.drop b = (l.drop a).drop (b - a) := by
    rw [List.drop_drop]
    congr 1
    omega
  rw [hd]
  exact List.drop_sublist _ _

theorem cut_block_sublist {α : Type} (video : List α) (s e : Int)
    (hs : 0 ≤ s) (hse : s ≤ e) :
    (cut_block video s e).Sublist video := by
  rw [cut_block]
  apply take_append_drop_sublist
  rw [pySliceIdx, if_neg (by omega), pySliceIdx, if_neg (by omega)]
  omega

/-- One good-regime step of the trimming loop: with the start index
nonnegative and the end index within the video, the step removes exactly
`cut` frames and advances `already_deleted` by `cut`. -/
theorem cut_step_spec {α : Type} (frames cut : Nat) (v : List α) (D : Int) (i : Nat)
    (hs : 0 ≤ ((((i + 1) * frames : Nat) : Int) - D - ((cut / 2 : Nat) : Int)))
    (he : (((i + 1) * frames : Nat) : Int) - D - ((cut / 2 : Nat) : Int) + (cut : Int)
      ≤ (v.length : Int)) :
    (cut_step frames cut ((v, D)) i).1.length = v.length - cut ∧
    (cut_step frames cut ((v, D)) i).2 = D + (cut : Int) ∧
    (cut_step frames cut ((v, D)) i).1.Sublist v := by
  have hlen := cut_block_length v
    ((((i + 1) * frames : Nat) : Int) - D - ((cut / 2 : Nat) : Int))
    ((((i + 1) * frames : Nat) : Int) - D - ((cut / 2 : Nat) : Int) + (cut : Int))
    hs (by omega) he
  have hsub := cut_block_sublist v
    ((((i + 1) * frames : Nat) : Int) - D - ((cut / 2 : Nat) : Int))
    ((((i + 1) * frames : Nat) : Int) - D - ((cut / 2 : Nat) : Int) + (cut : Int))
    hs (by omega)
  refine ⟨?_, ?_, ?_⟩
  · simp only [cut_step]
    rw [hlen]
    omega
  · simp only [cut_step]
    rw [hlen]
    omega
  · simp only [cut_step]
    exact hsub

/-- Invariant of the trimming loop in its intended regime
(`cut ≤ frames`): after `k` of the `N - 2` cuts, `already_deleted` is
`k * cut`, the video has lost exactly `k * cut` frames, and it is a
sublist of the concatenated video. -/
theorem cut_steps_spec {α : Type} (N frames cut : Nat) (video : List α)
    (hN : 2 ≤ N) (hcpos : 0 < cut) (hc : cut ≤ frames)
    (hv : video.length = (N - 1) * frames) :
    ∀ k, k ≤ N - 2 →
      ((List.range k).foldl (cut_step frames cut) ((video, (0 : Int)))).2
        = ((k * cut : Nat) : Int) ∧
      ((List.range k).foldl (cut_step frames cut) ((video, (0 : Int)))).1.length
        = (N - 1) * frames - k * cut ∧
      ((List.range k).foldl (cut_step frames cut) ((video, (0 : Int)))).1.Sublist
        video := by
  intro k
  induction k with
  | zero =>
    intro _
    exact ⟨by simp, by simpa using hv, List.Sublist.refl _⟩
  | succ k ih =>
    intro hk
    obtain ⟨hD, hL, hS⟩ := ih (by omega)
    rw [List.range_succ, List.foldl_append, List.foldl_cons, List.foldl_nil]
    have hm1 : (k + 1) * frames = k * frames + frames := by ring
    have hmc : (k + 1) * cut = k * cut + cut := by ring
    have hb : k * cut ≤ k * frames := Nat.mul_le_mul_left k hc
    have hb1 : (k + 1) * cut ≤ (k + 1) * frames := Nat.mul_le_mul_left (k + 1) hc
    have he1 : (k + 2) * frames ≤ (N - 1) * frames :=
      Nat.mul_le_mul_right frames (by omega)
    have hm2 : (k + 2) * frames = (k + 1) * frames + frames := by ring
    have hcut2 : cut / 2 ≤ cut := Nat.div_le_self cut 2
    have hst2 : ((List.range k).foldl (cut_step frames cut) ((video, (0 : Int)))).1
        = (((List.range k).foldl (cut_step frames cut) ((video, (0 : Int)))).1,
           ((List.range k).foldl (cut_step frames cut) ((video, (0 : Int)))).2).1 := rfl
    have hpair : (List.range k).foldl (cut_step frames cut) ((video, (0 : Int)))
        = (((List.range k).foldl (cut_step frames cut) ((video, (0 : Int)))).1,
           ((List.range k).foldl (cut_step frames cut) ((video, (0 : Int)))).2) := rfl
    rw [hpair, hD]
    have hspec := cut_step_spec frames cut
      ((List.range k).foldl (cut_step frames cut) ((video, (0 : Int)))).1
      ((k * cut : Nat) : Int) k (by omega)
      (by rw [hL]; omega)
    refine ⟨?_, ?_, ?_⟩
    · rw [hspec.2.1]; omega
    · rw [hspec.1, hL]; omega
    · exact hspec.2.2.trans hS

/-- C5 (counterexample): with `N = 3` images, `frames = 1`,
`cut_near_keyframes = 5`, the start index `1 - 5/2 = -1` is negative, so
Python slicing removes one frame instead of a block of five, and the
claimed final count `(N-1)*frames - (N-2)*cut = -3` is not attained: the
trimmed video keeps one frame. -/
theorem C5_counterexample :
    cut_near_keyframes_loop 3 1 5 [(10 : ℤ), 20] = [10] ∧
    ((cut_near_keyframes_loop 3 1 5 [(10 : ℤ), 20]).length : Int) ≠
      ((3 - 1) * 1 : Int) - ((3 - 2) * 5 : Int) := by
  constructor
  · rfl
  · decide

/-- C5 (amended): in the loop's intended regime `cut_near_keyframes ≤
frames`, each of the `N - 2` internal keyframes loses a contiguous block
of `cut_near_keyframes` frames starting `cut_near_keyframes // 2` before
the (deletion-adjusted) keyframe index, so the final video is a sublist
of the concatenated one with exactly
`(N-1)*frames - (N-2)*cut_near_keyframes` frames; with
`cut_near_keyframes = 0` nothing is removed; the trimmed video is
nonempty, so `last_image = out_video[-1]`, its final frame, exists. -/
theorem C5_trim {α : Type} (n frames cut : Nat) (video : List α)
    (hn : 2 ≤ n) (hf : 0 < frames) (hc : cut ≤ frames)
    (hv : video.length = (n - 1) * frames) :
    (0 < cut → (cut_near_keyframes_loop n frames cut video).length
        = (n - 1) * frames - (n - 2) * cut) ∧
    (cut = 0 → cut_near_keyframes_loop n frames cut video = video) ∧
    (cut_near_keyframes_loop n frames cut video).Sublist video ∧
    batch_last_image (cut_near_keyframes_loop n frames cut video) ≠ none := by
  have hlen : 0 < cut → (cut_near_keyframes_loop n frames cut video).length
      = (n - 1) * frames - (n - 2) * cut := by
    intro hcpos
    rw [cut_near_keyframes_loop, if_pos hcpos]
    exact ((cut_steps_spec n frames cut video hn hcpos hc hv (n - 2) le_rfl).2).1
  have hsub : (cut_near_keyframes_loop n frames cut video).Sublist video := by
    by_cases hcpos : 0 < cut
    · rw [cut_near_keyframes_loop, if_pos hcpos]
      exact (cut_steps_spec n frames cut video hn hcpos hc hv (n - 2) le_rfl).2.2
    · rw [cut_near_keyframes_loop, if_neg hcpos]
  have hpos : 0 < (cut_near_keyframes_loop n frames cut video).length := by
    by_cases hcpos : 0 < cut
    · rw [hlen hcpos]
      have h1 : (n - 2) * cut ≤ (n - 2) * frames := Nat.mul_le_mul_left _ hc
      have h2 : (n - 1) * frames = (n - 2) * frames + frames := by
        have h3 : n - 1 = (n - 2) + 1 := by omega
        rw [h3, Nat.succ_mul]
      omega
    · rw [cut_near_keyframes_loop, if_neg hcpos, hv]
      exact Nat.mul_pos (by omega) hf
  refine ⟨hlen, ?_, hsub, ?_⟩
  · intro h0
    rw [cut_near_keyframes_loop, if_neg (by omega)]
  · rw [batch_last_image]
    simp only [ne_eq, List.getLast?_eq_none_iff]
    intro hnil
    rw [hnil] at hpos
    simp at hpos

theorem C5_witness :
    (cut_near_keyframes_loop 3 2 2 [(10 : ℤ), 20, 30, 40]).length
      = (3 - 1) * 2 - (3 - 2) * 2 ∧
    batch_last_image (cut_near_keyframes_loop 3 2 2 [(10 : ℤ), 20, 30, 40]) ≠ none := by
  have h := C5_trim 3 2 2 [(10 : ℤ), 20, 30, 40]
    (by decide) (by decide) (by decide) (by decide)
  exact ⟨h.1 (by decide), h.2.2.2⟩

theorem nearest_src_lt (i inSz outSz : Nat) (hi : i < outSz) (hin : 0 < inSz) :
    i * inSz / outSz < inSz := by
  have hout : 0 < outSz := Nat.lt_of_le_of_lt (Nat.zero_le i) hi
  rw [Nat.div_lt_iff_lt_mul hout, Nat.mul_comm inSz outSz]
  exact (Nat.mul_lt_mul_right hin).mpr hi

/-- C3: with a mask, the sampler receives the mask resized by
nearest-neighbour lookup to the latent resolution `(H//8, W//8)` and
inverted as `1 - mask`, together with `x0 = z` (the first image's
latent); without one it receives `mask = None` and `x0 = None`. -/
theorem C3_mask_sampler_args {ζ : Type} (H W : Nat) (z : ζ) (m : Mask2D)
    (hin : 0 < m.H) (hinW : 0 < m.W) :
    ((sampler_mask_x0 H W z none).1 = none ∧
      (sampler_mask_x0 H W (z := z) none).2 = none) ∧
    (sampler_mask_x0 H W z (some m)).2 = some z ∧
    ∃ m2 : Mask2D, (sampler_mask_x0 H W z (some m)).1 = some m2 ∧
      m2.H = H / 8 ∧ m2.W = W / 8 ∧
      ∀ i j, i < H / 8 → j < W / 8 →
        i * m.H / (H / 8) < m.H ∧ j * m.W / (W / 8) < m.W ∧
        m2.val i j = 1 - m.val (i * m.H / (H / 8)) (j * m.W / (W / 8)) := by
  refine ⟨⟨rfl, rfl⟩, rfl, ⟨_, rfl, rfl, rfl, ?_⟩⟩
  intro i j hi hj
  exact ⟨nearest_src_lt i m.H (H / 8) hi hin,
    nearest_src_lt j m.W (W / 8) hj hinW, rfl⟩

theorem C3_witness :
    (sampler_mask_x0 16 16 (0 : ℤ) (some ⟨4, 4, fun i j => (i + j : ℚ)⟩)).2
      = some 0 ∧
    (sampler_mask_x0 16 16 (0 : ℤ) (none : Option Mask2D)).1 = none :=
  ⟨(C3_mask_sampler_args 16 16 0 ⟨4, 4, fun i j => (i + j : ℚ)⟩
      (by decide) (by decide)).2.1,
   (C3_mask_sampler_args 16 16 0 ⟨4, 4, fun i j => (i + j : ℚ)⟩
      (by decide) (by decide)).1.1⟩

/-- C6: the unconditional conditioning is built iff `cfg ≠ 1.0`; it then
reuses the conditional dict (the `c_concat` entry is untouched) with the
cross-attention entry replaced by the empty-text ++ zero-image
embedding; with `cfg = 1.0` the sampler receives `None`. -/
theorem C6_uc_construction {τ : Type} (cfg : ℚ) (imtext img_rep : τ)
    (empty_text_emb : τ) (embed_and_project : ImageTensor → τ)
    (cat_dim1 : τ → τ → τ) (b : Nat) :
    (construct_uc cfg (make_cond imtext img_rep) empty_text_emb
        embed_and_project cat_dim1 b = none ↔ cfg = 1) ∧
    (cfg ≠ 1 → ∃ uc,
      construct_uc cfg (make_cond imtext img_rep) empty_text_emb
        embed_and_project cat_dim1 b = some uc ∧
      uc.lookup "c_crossattn" =
        some [cat_dim1 empty_text_emb (embed_and_project (uc_zero_image b))] ∧
      uc.lookup "c_concat" = (make_cond imtext img_rep).lookup "c_concat") := by
  constructor
  · constructor
    · intro h
      by_contra hne
      rw [construct_uc] at h
      rw [if_pos hne] at h
      exact Option.noConfusion h
    · intro h
      rw [construct_uc, if_neg (not_not_intro h)]
  · intro h
    refine ⟨[("c_crossattn",
        [cat_dim1 empty_text_emb (embed_and_project (uc_zero_image b))]),
        ("c_concat", [img_rep])], ?_, rfl, rfl⟩
    rw [construct_uc, if_pos h]
    rfl

theorem C6_witness :
    ∃ uc, construct_uc 7 (make_cond (1 : ℤ) 2) 3 (fun _ => 4)
        (fun a d => a + d) 1 = some uc ∧
      uc.lookup "c_crossattn" = some [(3 : ℤ) + 4] ∧
      uc.lookup "c_concat" = (make_cond (1 : ℤ) 2).lookup "c_concat" :=
  (C6_uc_construction 7 (1 : ℤ) 2 3 (fun _ => 4) (fun a d => a + d) 1).2
    (by norm_num)

/-- C9: when the processed second image's shape differs from the first
image's, the tensor encoded as the end-frame latent is a bicubic resize
of the FIRST image — the result does not depend on `image2`'s pixel
values at all — and only when the shapes already match is `image2`
itself encoded. -/
theorem C9_end_frame_source (image image2 image2b : ImageTensor) :
    (shape_of image2 ≠ shape_of image →
      z2_source image image2 = interp_bicubic image image.H image.W) ∧
    (shape_of image2 ≠ shape_of image → shape_of image2b ≠ shape_of image →
      z2_source image image2 = z2_source image image2b) ∧
    (shape_of image2 = shape_of image → z2_source image image2 = image2) := by
  refine ⟨fun h => ?_, fun h h2 => ?_, fun h => ?_⟩
  · rw [z2_source, if_pos h]
  · rw [z2_source, if_pos h, z2_source, if_pos h2]
  · rw [z2_source, if_neg (not_not_intro h)]

theorem C9_witness :
    z2_source ⟨1, 3, 2, 2, fun _ _ _ _ => 0⟩ ⟨1, 3, 4, 4, fun _ _ _ _ => 9⟩ =
      interp_bicubic ⟨1, 3, 2, 2, fun _ _ _ _ => 0⟩ 2 2 ∧
    z2_source ⟨1, 3, 2, 2, fun _ _ _ _ => 0⟩ ⟨1, 3, 4, 4, fun _ _ _ _ => 9⟩ =
      z2_source ⟨1, 3, 2, 2, fun _ _ _ _ => 0⟩ ⟨1, 3, 4, 4, fun _ _ _ _ => 5⟩ :=
  ⟨(C9_end_frame_source ⟨1, 3, 2, 2, fun _ _ _ _ => 0⟩
      ⟨1, 3, 4, 4, fun _ _ _ _ => 9⟩ ⟨1, 3, 4, 4, fun _ _ _ _ => 5⟩).1
      (by decide),
   (C9_end_frame_source ⟨1, 3, 2, 2, fun _ _ _ _ => 0⟩
      ⟨1, 3, 4, 4, fun _ _ _ _ => 9⟩ ⟨1, 3, 4, 4, fun _ _ _ _ => 5⟩).2.1
      (by decide) (by decide)⟩

/-- C8 (counterexample): with original size 66×64 the sampled video is
64×64 and the final bicubic upscale to 66×64 overshoots: for a decoded
output whose first two rows clamp to 1 and the rest to -1, the returned
video's pixel (frame 0, row 1, col 0) is 43915/42592 > 1, so not every
returned pixel value lies in [0, 1]. -/
theorem bicubic1d_self (inSz : Nat) (hin : 0 < inSz) (f : Nat → ℚ) (i : Nat)
    (hi : i < inSz) : bicubic1d inSz inSz f i = f i := by
  have hne : (inSz : ℚ) ≠ 0 := Nat.cast_ne_zero.mpr (by omega)
  have hs : src_coord inSz inSz i = (i : ℚ) := by
    rw [src_coord]
    field_simp
    ring
  have hfl : qfloor (src_coord inSz inSz i) = (i : ℤ) := by
    rw [hs, qfloor]
    exact_mod_cast Int.floor_intCast (i : ℤ)
  have hclamp : clamp_idx inSz (i : ℤ) = i := by
    rw [clamp_idx]
    omega
  simp only [bicubic1d]
  rw [hfl, hs]
  push_cast
  norm_num [cubic_conv1, cubic_conv2, hclamp]

theorem C8_counterexample :
    1 < (final_resize 66 64 (postprocess_video 1 64 64 1
      (fun _c _t h _w => if h ≤ 1 then 1 else -1))).val 0 1 0 0 := by
  have hval : (final_resize 66 64 (postprocess_video 1 64 64 1
      (fun _c _t h _w => if h ≤ 1 then 1 else -1))).val 0 1 0 0
      = bicubic2d 64 64 66 64
          (fun r s => (postprocess_video 1 64 64 1
            (fun _c _t h _w => if h ≤ 1 then 1 else -1)).val 0 r s 0) 1 0 := by
    simp [final_resize, postprocess_video]
  have hrow : ∀ r s2, (postprocess_video 1 64 64 1
      (fun _c _t h _w => if h ≤ 1 then (1 : ℚ) else -1)).val 0 r s2 0
      = if r ≤ 1 then 1 else 0 := by
    intro r s2
    by_cases h : r ≤ 1 <;>
      simp [postprocess_video, h, max_def, min_def] <;> norm_num
  have hFfun : (fun r => bicubic1d 64 64 (fun s => (postprocess_video 1 64 64 1
      (fun _c _t h _w => if h ≤ 1 then (1 : ℚ) else -1)).val 0 r s 0) 0)
      = fun r => if r ≤ 1 then (1 : ℚ) else 0 := by
    funext r
    rw [bicubic1d_self 64 (by norm_num) _ 0 (by norm_num)]
    exact hrow r 0
  have hs66 : src_coord 64 66 1 = 21/22 := by
    rw [src_coord]
    norm_num
  have hfl66 : qfloor (src_coord 64 66 1) = 0 := by
    rw [hs66, qfloor]
    exact Int.floor_eq_iff.mpr (by norm_num)
  rw [hval, bicubic2d, hFfun]
  simp only [bicubic1d]
  rw [hfl66, hs66]
  have hcm1 : clamp_idx 64 ((0 : ℤ) - 1) = 0 := by decide
  have hc0 : clamp_idx 64 (0 : ℤ) = 0 := by decide
  have hcp1 : clamp_idx 64 ((0 : ℤ) + 1) = 1 := by decide
  have hcp2 : clamp_idx 64 ((0 : ℤ) + 2) = 2 := by decide
  rw [hcm1, hc0, hcp1, hcp2]
  norm_num [cubic_conv1, cubic_conv2]

/-- C8 (amended): inputs are mapped from [0,1] to [-1,1] by `x*2-1`
before encoding; decoded outputs are clamped to [-1,1] and mapped back
by `(x+1)/2`, so every pixel value is in [0,1] *before* the final parity
resize, and hence in the returned video whenever its dims already equal
`((orig_H//2)*2, (orig_W//2)*2)` and no resize runs; the returned
video's spatial dims always equal `((orig_H//2)*2, (orig_W//2)*2)`; when
the bicubic resize does run its overshoot can leave [0,1]. -/
theorem C8_range_and_size (T H W C origH origW : Nat)
    (decoded : Nat → Nat → Nat → Nat → ℚ) :
    (∀ t h w c, 0 ≤ (postprocess_video T H W C decoded).val t h w c ∧
      (postprocess_video T H W C decoded).val t h w c ≤ 1) ∧
    ((final_resize origH origW (postprocess_video T H W C decoded)).H
        = origH / 2 * 2 ∧
      (final_resize origH origW (postprocess_video T H W C decoded)).W
        = origW / 2 * 2 ∧
      (final_resize origH origW (postprocess_video T H W C decoded)).T = T) ∧
    (H = origH / 2 * 2 → W = origW / 2 * 2 →
      final_resize origH origW (postprocess_video T H W C decoded)
        = postprocess_video T H W C decoded) ∧
    (∀ x : ℚ, 0 ≤ x → x ≤ 1 →
      -1 ≤ pixel_to_model_range x ∧ pixel_to_model_range x ≤ 1) := by
  have hrange : ∀ t h w c, 0 ≤ (postprocess_video T H W C decoded).val t h w c ∧
      (postprocess_video T H W C decoded).val t h w c ≤ 1 := by
    intro t h w c
    show 0 ≤ (min (max (decoded c t h w) (-1)) 1 + 1) / 2 ∧
      (min (max (decoded c t h w) (-1)) 1 + 1) / 2 ≤ 1
    have h1 : (-1 : ℚ) ≤ min (max (decoded c t h w) (-1)) 1 :=
      le_min (le_max_right _ _) (by norm_num)
    have h2 : min (max (decoded c t h w) (-1)) 1 ≤ 1 := min_le_right _ _
    constructor <;> linarith
  refine ⟨hrange, ?_, ?_, ?_⟩
  · simp only [final_resize]
    split
    · exact ⟨rfl, rfl, rfl⟩
    · rename_i hcond
      push_neg at hcond
      exact ⟨hcond.1, hcond.2, rfl⟩
  · intro hH hW
    rw [final_resize, if_neg]
    push_neg
    exact ⟨hH, hW⟩
  · intro x h0 h1
    rw [pixel_to_model_range]
    constructor <;> linarith

theorem C8_witness :
    (0 ≤ (postprocess_video 1 2 2 1 (fun _ _ _ _ => 5)).val 0 0 0 0 ∧
      (postprocess_video 1 2 2 1 (fun _ _ _ _ => 5)).val 0 0 0 0 ≤ 1) ∧
    final_resize 2 3 (postprocess_video 1 2 2 1 (fun _ _ _ _ => 5))
      = postprocess_video 1 2 2 1 (fun _ _ _ _ => 5) ∧
    -1 ≤ pixel_to_model_range (1/2) ∧ pixel_to_model_range (1/2) ≤ 1 :=
  ⟨(C8_range_and_size 1 2 2 1 2 3 (fun _ _ _ _ => 5)).1 0 0 0 0,
   (C8_range_and_size 1 2 2 1 2 3 (fun _ _ _ _ => 5)).2.2.1 (by decide) (by decide),
   (C8_range_and_size 1 2 2 1 2 3 (fun _ _ _ _ => 5)).2.2.2 (1/2)
      (by norm_num) (by norm_num)⟩
